import Mathlib

/-!
Shallow embedding of the burden_genesets repository
(`src/create_trait_modules.py`, `src/convert.py`).

Strings are modelled as lists of characters (`Str`), so Python string
surgery (`strip`, `replace`, `split`, `join`) becomes structural
recursion.  DataFrames are modelled as Lean lists of structure values,
and the pandas operations used by the code (`merge`, `explode`,
`groupby`/`agg`, `duplicated`, boolean-mask selection) are embedded as
list functions.  Fallible code paths (`assert` and Python name lookup)
return `Except`.
-/

namespace BurdenGenesets

abbrev Str := List Char

/-- Underlying character list of a Lean string literal. -/
def chars (s : String) : Str := s.data

/-- Python `s.split(sep)` for a one-character separator: always returns at
least one (possibly empty) field, with empty fields between adjacent
separators and at either end. -/
def pySplit (sep : Char) : Str → List Str
  | [] => [[]]
  | c :: rest =>
    match pySplit sep rest with
    | [] => [[c]]
    | g :: gs => if c = sep then [] :: g :: gs else (c :: g) :: gs

/-- Python `sep.join(parts)`. -/
def joinSep (sep : Str) : List Str → Str
  | [] => []
  | [t] => t
  | t :: ts => t ++ sep ++ joinSep sep ts

/-- Python `s.strip(cs)`: remove leading and trailing characters
satisfying `p`. -/
def pyStripBoth (p : Char → Bool) (s : Str) : Str :=
  ((s.dropWhile p).reverse.dropWhile p).reverse

/-- The whitespace characters stripped by Python `str.strip()`. -/
def isPyWs (c : Char) : Bool :=
  c = ' ' || c = '\t' || c = '\n' || c = '\r' || c = '\x0b' || c = '\x0c'

/-- Characters stripped by `strip('[]')` in the source. -/
def isBracketChar (c : Char) : Bool := c = '[' || c = ']'

/-- Characters stripped by `strip("'\"")` in the source. -/
def isQuoteChar (c : Char) : Bool := c = '\'' || c = '"'

/-- Python `s.strip()`. -/
def pyStripWs (s : Str) : Str := pyStripBoth isPyWs s

/-- Python `s.replace(' ', '')`: drop every space character. -/
def removeSpaces (s : Str) : Str := s.filter (fun c => !(c == ' '))

/-- Python `s.startswith('[')`. -/
def startsWithBracket : Str → Bool
  | '[' :: _ => true
  | _ => false

/-- Normalisation `code.strip().strip("'\"")` applied to every parsed trait code
(src/create_trait_modules.py line 54). -/
def normCode (c : Str) : Str := pyStripBoth isQuoteChar (pyStripWs c)

/-- First-occurrence deduplication (worker with an accumulator of values
already emitted). -/
def dedupFAux [DecidableEq α] (seen : List α) : List α → List α
  | [] => []
  | x :: xs => if x ∈ seen then dedupFAux seen xs else x :: dedupFAux (x :: seen) xs

/-- First-occurrence deduplication: the embedding of collapsing a column
into a Python `set` (whose iteration order is unspecified; the embedding
fixes first-insertion order) and of pandas `nunique` counting. -/
def dedupF [DecidableEq α] (l : List α) : List α := dedupFAux [] l

/-- Insert into a list sorted by the comparator `le`. -/
def insortBy (le : α → α → Bool) (x : α) : List α → List α
  | [] => [x]
  | y :: ys => if le x y then x :: y :: ys else y :: insortBy le x ys

/-- Insertion sort by a boolean comparator (embedding of Python `sorted`
and of the sorted group keys of pandas `groupby`). -/
def sortBy (le : α → α → Bool) (l : List α) : List α := l.foldr (insortBy le) []

/-- pandas `left.merge(right, on=k, how='inner')`: for each left row in
order, one output row per matching right row; unmatched left rows are
dropped. -/
def innerJoin {L R K : Type} [DecidableEq K]
    (ls : List L) (rs : List R) (lk : L → K) (rk : R → K) : List (L × R) :=
  ls.flatMap (fun l => (rs.filter (fun r => decide (rk r = lk l))).map (fun r => (l, r)))

/-- Output rows a single left row contributes to a left join: its
matches on the right, or itself with a null payload when unmatched. -/
def leftJoinRow {L R K : Type} [DecidableEq K]
    (rs : List R) (rk : R → K) (k : K) (l : L) : List (L × Option R) :=
  match rs.filter (fun r => decide (rk r = k)) with
  | [] => [(l, none)]
  | ms => ms.map (fun r => (l, some r))

/-- pandas `left.merge(right, on=k, how='left')`: every left row is kept;
an unmatched left row gets a null right payload, a matched one fans out
over all matching right rows. -/
def leftJoin {L R K : Type} [DecidableEq K]
    (ls : List L) (rs : List R) (lk : L → K) (rk : R → K) : List (L × Option R) :=
  ls.flatMap (fun l => leftJoinRow rs rk (lk l) l)

/-! ### Trait modules (src/create_trait_modules.py) -/

/-- A trait row's `icd10` cell: the source iterates it, so it is either a
string encoding of a list or a native list (other cell types would make
the Python `for code in icd10_codes` loop fail and are outside the
claims). -/
inductive TraitCell where
  | str (s : Str)
  | list (l : List Str)
deriving DecidableEq

/-- One row of `trait_df`: the trait index and its ICD-10 code cell. -/
abbrev TraitRow := Int × TraitCell

/-- Raw code tokens of one trait cell, before per-code normalisation:
`icd10_codes.strip('[]').replace(' ', '').split(',')` for a string cell,
the list itself for a list cell (lines 48-50). -/
def traitCellCodes : TraitCell → List Str
  | .str s => pySplit ',' (removeSpaces (pyStripBoth isBracketChar s))
  | .list l => l

/-- The `icd10_to_traits` dictionary built on lines 41-57, viewed as a
lookup: the trait indices appended for token `tok`, in traversal order
(rows in order, codes in order within a row, each code normalised by
`normCode`). A token never inserted yields `[]`. -/
def indexLookup (traits : List TraitRow) (tok : Str) : List Int :=
  (traits.flatMap (fun r => (traitCellCodes r.2).map (fun c => (normCode c, r.1)))).filterMap
    (fun p => if p.1 = tok then some p.2 else none)

/-- An individual's `icd10_codes` cell as seen by `get_trait_modules`:
`null` is Python `None` or a NaN float, `other` is any remaining
non-string non-list scalar (which the source maps to `[]`). -/
inductive CellValue where
  | null
  | str (s : Str)
  | list (l : List Str)
  | other
deriving DecidableEq

/-- Comparator for Python `sorted` over ints. -/
def intLeB (a b : Int) : Bool := decide (a ≤ b)

/-- Python `sorted(list(trait_modules))` where `trait_modules` is the set of all
trait indices found for the individual's codes (lines 79-84). -/
def resolveCodes (traits : List TraitRow) (codes : List Str) : List Int :=
  sortBy intLeB (dedupF (codes.flatMap (indexLookup traits)))

/-- Embedding of `get_trait_modules` (src/create_trait_modules.py lines 59-84). -/
def get_trait_modules (traits : List TraitRow) (v : CellValue) : List Int :=
  match v with
  | .null => []
  | .str s =>
    let codes :=
      if startsWithBracket s then
        ((pySplit ',' (removeSpaces (pyStripBoth isBracketChar s))).filter
            (fun c => !(pyStripWs c).isEmpty)).map normCode
      else
        (pySplit ',' s).map pyStripWs
    resolveCodes traits codes
  | .list l => resolveCodes traits l
  | .other => []

/-- Copy semantics of `individual_df.copy()` (line 38): value semantics in the embedding. -/
def dfCopy (l : List α) : List α := l

/-- Embedding of `create_trait_modules` (lines 6-89): the individual table is a list of
rows, each carrying its other columns (`α`) and its `icd10_codes` cell;
the result pairs every original row with the new `trait_modules` column. -/
def create_trait_modules {α : Type} (traits : List TraitRow) (ind : List (α × CellValue)) :
    List ((α × CellValue) × List Int) :=
  (dfCopy ind).map (fun r => (r, get_trait_modules traits r.2))

/-! ### Conversion pipeline (src/convert.py) -/

/-- One row of a regenie setlist file (`read_setlist`, lines 38-51):
columns `transcript, chr, pos, snp`; `snp` is a comma-delimited token
string. -/
structure SetlistRow where
  transcript : Str
  chr : Str
  pos : Int
  snp : Str
deriving DecidableEq

/-- One row of the transcript map handed to `convert_setlist` /
`convert_annot` by `convert_data` (lines 269-272): columns
`chrom, transcript, gene, gene_symbol, gene_set`.  `gene_set` is the
only column whose nulls the code inspects, so it alone is an `Option`. -/
structure MapRow where
  chrom : Str
  transcript : Str
  gene : Str
  gene_symbol : Str
  gene_set : Option Str
deriving DecidableEq

/-- One row of a regenie annotation file (`read_regenie_annot`-style
loader, lines 53-66): columns `snp, transcript, snp_set`. -/
structure AnnotRow where
  snp : Str
  transcript : Str
  snp_set : Str
deriving DecidableEq

/-- Errors a conversion can raise. -/
inductive PyErr where
  | assertionError (msg : Str)
  | nameError
deriving DecidableEq

/-- Names interpolated by the assertion's f-string
`f"NaNs found in gene_set column for {chrom}."` on lines 215 and 254. -/
def assertMsgRefs : List Str := [chars ("chrom")]

/-- Static text of that assertion message (the interpolated part is
captured by `assertMsgRefs`). -/
def assertMsgText : Str := chars ("NaNs found in gene_set column.")

/-- Python f-string evaluation: succeeds only when every interpolated
name is bound in the evaluating scope, otherwise raises `NameError`. -/
def evalFMsg (scope : List Str) (refs : List Str) (txt : Str) : Except PyErr Str :=
  if refs.all (fun n => decide (n ∈ scope)) then .ok txt else .error .nameError

/-- Python `assert cond, msg`: the message expression is evaluated only
when the condition fails; an error raised by that evaluation replaces
the `AssertionError`. -/
def pyAssert (cond : Bool) (msg : Except PyErr Str) : Except PyErr Unit :=
  if cond then .ok ()
  else
    match msg with
    | .ok m => .error (.assertionError m)
    | .error e => .error e

/-- Module-level names of src/convert.py visible from inside its
functions (imports and function definitions; `chrom` is only ever a
local of `convert_data` and is not among them). -/
def convertModuleGlobals : List Str :=
  [chars ("pd"), chars ("os"), chars ("glob"),
   chars ("get_chromosomes"), chars ("read_gene_sets"), chars ("read_setlist"),
   chars ("read_regenie_annotation"), chars ("convert_annotation"),
   chars ("combine_annotations"), chars ("combine_setlists"),
   chars ("double_occurances"), chars ("analyze_data"),
   chars ("convert_setlist"), chars ("convert_annot"), chars ("convert_data")]

/-- Names bound in the scope of `convert_setlist` (its parameters and
locals, plus the module globals). -/
def convertSetlistScope : List Str :=
  [chars ("filename"), chars ("transcript_map"), chars ("outdir"),
   chars ("setlist_df"), chars ("merged_df")] ++ convertModuleGlobals

/-- Names bound in the scope of `convert_annot`. -/
def convertAnnotScope : List Str :=
  [chars ("filename"), chars ("transcript_map"), chars ("outdir"),
   chars ("annot_df"), chars ("merged_df")] ++ convertModuleGlobals

/-- Decimal rendering of an integer as written by `to_csv`. -/
def intChars (i : Int) : Str := (toString i).data

/-- Grouping key `['gene_set', 'chrom', 'pos']` of `convert_setlist`
(line 228): `gene_set` and `chrom` come from the transcript map side of
the merge, `pos` from the setlist side. -/
abbrev GroupKey := Option Str × Str × Int

def mergedKey (r : SetlistRow × MapRow) : GroupKey :=
  (r.2.gene_set, r.2.chrom, r.1.pos)

/-- Explosion step `merged_df['snp'] = merged_df['snp'].str.split(',')` followed by
`merged_df.explode('snp')` (lines 225-226): one row per snp token, all
other columns replicated. -/
def explodeSnp (rows : List (SetlistRow × MapRow)) : List ((SetlistRow × MapRow) × Str) :=
  rows.flatMap (fun r => (pySplit ',' r.1.snp).map (fun t => (r, t)))

def exKey (r : (SetlistRow × MapRow) × Str) : GroupKey := mergedKey r.1

/-- Lexicographic comparator on `Str` (by character code). -/
def strLeB : Str → Str → Bool
  | [], _ => true
  | _ :: _, [] => false
  | a :: as, b :: bs => if a = b then strLeB as bs else decide (a < b)

def optStrLeB : Option Str → Option Str → Bool
  | none, _ => true
  | some _, none => false
  | some a, some b => strLeB a b

/-- Comparator ordering the group keys, as pandas `groupby` (sort=True)
sorts groups by their key tuple. -/
def keyLeB (a b : GroupKey) : Bool :=
  if a.1 = b.1 then
    (if a.2.1 = b.2.1 then decide (a.2.2 ≤ b.2.2) else strLeB a.2.1 b.2.1)
  else optStrLeB a.1 b.1

/-- One output line of the converted setlist: columns
`gene_set, chrom, pos, snp` tab-joined, the snp field being the
comma-join of the group's token set (lines 228-238). -/
def renderSetlistLine (k : GroupKey) (snps : List Str) : Str :=
  joinSep ['\t'] [k.1.getD [], k.2.1, intChars k.2.2, joinSep [','] (dedupF snps)]

/-- Assertion condition `not merged_df['gene_set'].isna().any()` (line 215). -/
def setlistAssertCond (merged : List (SetlistRow × MapRow)) : Bool :=
  !(merged.any (fun r => r.2.gene_set.isNone))

/-- Lines 224-238 of `convert_setlist` after the assertion: explode the
snp tokens, group by `(gene_set, chrom, pos)` collapsing the tokens of
each group into a set, and render the tab-separated headerless lines. -/
def setlistLines (merged : List (SetlistRow × MapRow)) : List Str :=
  let ex := explodeSnp merged
  (sortBy keyLeB (dedupF (ex.map exKey))).map
    (fun k => renderSetlistLine k
      ((ex.filter (fun r => decide (exKey r = k))).map (fun r => r.2)))

/-- Embedding of `convert_setlist` (src/convert.py lines 200-238): inner-merge the
setlist with the transcript map on `transcript`, assert the merged
`gene_set` column has no nulls, then aggregate and return the lines
written to the output file. -/
def convert_setlist (setlist : List SetlistRow) (tmap : List MapRow) :
    Except PyErr (List Str) :=
  let merged := innerJoin setlist tmap (·.transcript) (·.transcript)
  match pyAssert (setlistAssertCond merged)
      (evalFMsg convertSetlistScope assertMsgRefs assertMsgText) with
  | .error e => .error e
  | .ok _ => .ok (setlistLines merged)

/-- One output line of the converted annotation: columns
`snp, gene_set, snp_set` tab-joined (lines 257-262). -/
def renderAnnotLine (r : AnnotRow × MapRow) : Str :=
  joinSep ['\t'] [r.1.snp, r.2.gene_set.getD [], r.1.snp_set]

/-- Embedding of `convert_annot` (src/convert.py lines 240-262): inner-merge the
annotation rows with the transcript map on `transcript`, assert no
nulls in `gene_set`, and return the tab-separated headerless lines. -/
def convert_annot (annot : List AnnotRow) (tmap : List MapRow) :
    Except PyErr (List Str) :=
  let merged := innerJoin annot tmap (·.transcript) (·.transcript)
  match pyAssert (!(merged.any (fun r => r.2.gene_set.isNone)))
      (evalFMsg convertAnnotScope assertMsgRefs assertMsgText) with
  | .error e => .error e
  | .ok _ => .ok (merged.map renderAnnotLine)

/-! ### Duplicate detector and diagnostic joins -/

/-- pandas `df.duplicated(subset=col, keep=False)`: the boolean mask
marking every row whose key occurs more than once. -/
def duplicatedMask {K : Type} [DecidableEq K] (keys : List K) : List Bool :=
  keys.map (fun k => decide (1 < keys.count k))

/-- Row selection by a boolean mask (`df[mask]`). -/
def maskFilter : List α → List Bool → List α
  | [], _ => []
  | _, [] => []
  | a :: as, b :: bs => if b then a :: maskFilter as bs else maskFilter as bs

/-- Embedding of `double_occurances` (src/convert.py lines 132-135): the rows whose
key-column value appears more than once across the whole table. -/
def double_occurances {K : Type} [DecidableEq K] (rows : List α) (col : α → K) : List α :=
  maskFilter rows (duplicatedMask (rows.map col))

/-- The count printed by `double_occurances`:
`duplicates[col].nunique()`, the number of distinct affected key
values. -/
def doubleOccCount {K : Type} [DecidableEq K] (rows : List α) (col : α → K) : Nat :=
  (dedupF ((double_occurances rows col).map col)).length

/-- The diagnostic left merge of a setlist against the transcript map on
`transcript` (`analyze_data`, line 174). -/
def setlistLeftMerge (s : List SetlistRow) (t : List MapRow) :
    List (SetlistRow × Option MapRow) :=
  leftJoin s t (·.transcript) (·.transcript)

/-- The rows whose right payload fell out null, i.e. those flagged by
`combined_setlist_df['gene'].isna()` (line 176; in the embedding the
map's own columns are non-null so `gene` is null exactly when the row
is unmatched). -/
def missingTranscripts (s : List SetlistRow) (t : List MapRow) :
    List (SetlistRow × Option MapRow) :=
  (setlistLeftMerge s t).filter (fun r => r.2.isNone)

/-- Reported count `missing_transcripts.transcript.nunique()` (line 178): the reported
count of distinct missing transcripts. -/
def missingTranscriptCount (s : List SetlistRow) (t : List MapRow) : Nat :=
  (dedupF ((missingTranscripts s t).map (fun r => r.1.transcript))).length

/-- The diagnostic left merge of the combined annotation table against
the transcript map on `transcript` (`analyze_data`, line 185). -/
def annotLeftMerge (a : List AnnotRow) (t : List MapRow) :
    List (AnnotRow × Option MapRow) :=
  leftJoin a t (·.transcript) (·.transcript)

/-- The annotation rows whose right payload fell out null, i.e. those
flagged by `combined_annot_df['gene'].isna()` (line 187; the map's own
columns are non-null in the embedding, so `gene` is null exactly when
the row is unmatched). -/
def missingTranscriptsAnnot (a : List AnnotRow) (t : List MapRow) :
    List (AnnotRow × Option MapRow) :=
  (annotLeftMerge a t).filter (fun r => r.2.isNone)

/-- Reported count `missing_transcripts_annot.transcript.nunique()`
(line 189): the distinct missing transcripts of the annotation merge. -/
def missingTranscriptAnnotCount (a : List AnnotRow) (t : List MapRow) : Nat :=
  (dedupF ((missingTranscriptsAnnot a t).map (fun r => r.1.transcript))).length

/-! ### Helper lemmas -/

theorem maskFilter_map_map {α K : Type} (p : K → Bool) (f : α → K) :
    ∀ l : List α, maskFilter l ((l.map f).map p) = l.filter (fun a => p (f a)) := by
  intro l
  induction l with
  | nil => rfl
  | cons a as ih =>
    simp only [List.map_cons, maskFilter, List.filter_cons, ih]

theorem dedupFAux_mem {α : Type} [DecidableEq α] (x : α) :
    ∀ (l seen : List α), x ∈ dedupFAux seen l ↔ x ∈ l ∧ x ∉ seen := by
  intro l
  induction l with
  | nil => intro seen; simp [dedupFAux]
  | cons y ys ih =>
    intro seen
    by_cases hy : y ∈ seen
    · rw [show dedupFAux seen (y :: ys) = dedupFAux seen ys by simp [dedupFAux, hy]]
      rw [ih seen]
      constructor
      · rintro ⟨hx, hs⟩; exact ⟨List.mem_cons_of_mem _ hx, hs⟩
      · rintro ⟨hx, hs⟩
        rcases List.mem_cons.mp hx with h | h
        · exact absurd (h ▸ hy) hs
        · exact ⟨h, hs⟩
    · rw [show dedupFAux seen (y :: ys) = y :: dedupFAux (y :: seen) ys by
        simp [dedupFAux, hy]]
      rw [List.mem_cons, ih (y :: seen)]
      constructor
      · rintro (h | ⟨hx, hs⟩)
        · exact ⟨h ▸ List.mem_cons_self y ys, h ▸ hy⟩
        · exact ⟨List.mem_cons_of_mem _ hx, fun hmem => hs (List.mem_cons_of_mem _ hmem)⟩
      · rintro ⟨hx, hs⟩
        by_cases hxy : x = y
        · exact Or.inl hxy
        · rcases List.mem_cons.mp hx with h | h
          · exact absurd h hxy
          · exact Or.inr ⟨h, by simp [List.mem_cons, hxy, hs]⟩

theorem dedupF_mem {α : Type} [DecidableEq α] (x : α) (l : List α) :
    x ∈ dedupF l ↔ x ∈ l := by
  simp [dedupF, dedupFAux_mem]

theorem insortBy_length {α : Type} (le : α → α → Bool) (x : α) :
    ∀ l : List α, (insortBy le x l).length = l.length + 1 := by
  intro l
  induction l with
  | nil => rfl
  | cons y ys ih => by_cases h : le x y <;> simp [insortBy, h, ih]

theorem sortBy_length {α : Type} (le : α → α → Bool) :
    ∀ l : List α, (sortBy le l).length = l.length := by
  intro l
  induction l with
  | nil => rfl
  | cons y ys ih =>
    show (insortBy le y (sortBy le ys)).length = ys.length + 1
    rw [insortBy_length, ih]

theorem insortBy_mem {α : Type} (le : α → α → Bool) (x y : α) :
    ∀ l : List α, y ∈ insortBy le x l ↔ y = x ∨ y ∈ l := by
  intro l
  induction l with
  | nil => simp [insortBy]
  | cons z zs ih =>
    by_cases h : le x z
    · simp [insortBy, h, List.mem_cons]
    · rw [show insortBy le x (z :: zs) = z :: insortBy le x zs by simp [insortBy, h]]
      rw [List.mem_cons, ih, List.mem_cons]
      tauto

theorem sortBy_mem {α : Type} (le : α → α → Bool) (y : α) :
    ∀ l : List α, y ∈ sortBy le l ↔ y ∈ l := by
  intro l
  induction l with
  | nil => simp [sortBy]
  | cons z zs ih =>
    show y ∈ insortBy le z (sortBy le zs) ↔ _
    rw [insortBy_mem, ih, List.mem_cons]

theorem mem_innerJoin {L R K : Type} [DecidableEq K]
    (ls : List L) (rs : List R) (lk : L → K) (rk : R → K) (l : L) (r : R) :
    (l, r) ∈ innerJoin ls rs lk rk ↔ l ∈ ls ∧ r ∈ rs ∧ rk r = lk l := by
  simp only [innerJoin, List.mem_flatMap, List.mem_map, List.mem_filter,
    decide_eq_true_eq, Prod.mk.injEq]
  constructor
  · rintro ⟨a, ha, b, ⟨hb, hk⟩, h1, h2⟩
    subst h1; subst h2
    exact ⟨ha, hb, hk⟩
  · rintro ⟨hl, hr, hk⟩
    exact ⟨l, hl, r, ⟨hr, hk⟩, rfl, rfl⟩

theorem filter_key_nil_iff {R K : Type} [DecidableEq K] (rs : List R) (rk : R → K) (k : K) :
    rs.filter (fun r => decide (rk r = k)) = [] ↔ k ∉ rs.map rk := by
  rw [List.filter_eq_nil_iff]
  simp only [decide_eq_true_eq, List.mem_map]
  constructor
  · rintro h ⟨a, ha, hk⟩; exact h a ha hk
  · rintro h a ha hk; exact h ⟨a, ha, hk⟩

theorem filter_eq_find_of_nodup {R K : Type} [DecidableEq K]
    (rs : List R) (rk : R → K) (k : K) (h : (rs.map rk).Nodup) :
    rs.filter (fun r => decide (rk r = k))
      = (rs.find? (fun r => decide (rk r = k))).toList := by
  induction rs with
  | nil => rfl
  | cons r rs' ih =>
    rw [List.map_cons, List.nodup_cons] at h
    by_cases hk : rk r = k
    · have hnil : rs'.filter (fun x => decide (rk x = k)) = [] := by
        rw [filter_key_nil_iff]
        exact hk ▸ h.1
      rw [List.find?_cons_of_pos _ (by simpa using hk)]
      simp [List.filter_cons, hk, hnil]
    · rw [List.find?_cons_of_neg _ (by simpa using hk)]
      simp [List.filter_cons, hk, ih h.2]

theorem leftJoinRow_of_nodup {L R K : Type} [DecidableEq K]
    (rs : List R) (rk : R → K) (k : K) (l : L) (h : (rs.map rk).Nodup) :
    leftJoinRow rs rk k l = [(l, rs.find? (fun r => decide (rk r = k)))] := by
  rw [leftJoinRow, filter_eq_find_of_nodup rs rk k h]
  cases rs.find? (fun r => decide (rk r = k)) with
  | none => rfl
  | some r => rfl

theorem leftJoinRow_unmatched {L R K : Type} [DecidableEq K]
    (rs : List R) (rk : R → K) (k : K) (l : L) (h : k ∉ rs.map rk) :
    leftJoinRow rs rk k l = [(l, none)] := by
  rw [leftJoinRow, (filter_key_nil_iff rs rk k).mpr h]

theorem leftJoinRow_isNone_filter {L R K : Type} [DecidableEq K]
    (rs : List R) (rk : R → K) (k : K) (l : L) :
    (leftJoinRow rs rk k l).filter (fun p => p.2.isNone)
      = if k ∈ rs.map rk then [] else [(l, none)] := by
  by_cases hm : k ∈ rs.map rk
  · rw [if_pos hm]
    cases hf : rs.filter (fun r => decide (rk r = k)) with
    | nil => exact absurd ((filter_key_nil_iff rs rk k).mp hf) (fun hn => hn hm)
    | cons m ms =>
      rw [leftJoinRow, hf]
      simp
  · rw [if_neg hm, leftJoinRow_unmatched rs rk k l hm]
    rfl

theorem leftJoin_isNone_filter {L R K : Type} [DecidableEq K]
    (ls : List L) (rs : List R) (lk : L → K) (rk : R → K) :
    (leftJoin ls rs lk rk).filter (fun p => p.2.isNone)
      = (ls.filter (fun l => decide (lk l ∉ rs.map rk))).map (fun l => (l, none)) := by
  induction ls with
  | nil => rfl
  | cons l ls' ih =>
    rw [leftJoin, List.flatMap_cons, List.filter_append]
    rw [show (ls'.flatMap fun a => leftJoinRow rs rk (lk a) a) = leftJoin ls' rs lk rk
      from rfl]
    rw [ih, leftJoinRow_isNone_filter, List.filter_cons]
    by_cases hm : lk l ∈ rs.map rk
    · simp [hm]
    · simp [hm]

/-! ### Claim theorems -/

theorem pySplit_no_sep (sep : Char) :
    ∀ s : Str, (∀ c ∈ s, c ≠ sep) → pySplit sep s = [s] := by
  intro s
  induction s with
  | nil => intro _; rfl
  | cons c cs ih =>
    intro h
    have hcs := ih (fun x hx => h x (List.mem_cons_of_mem _ hx))
    have hc : c ≠ sep := h c (List.mem_cons_self c cs)
    simp [pySplit, hcs, hc]

/-- Trait relation `{1: ['I48','I422'], 2: ['M069']}` of the end-to-end
scenario. -/
def c1Traits : List TraitRow :=
  [(1, TraitCell.list [chars ("I48"), chars ("I422")]),
   (2, TraitCell.list [chars ("M069")])]

/-- Claim C1: for the trait relation `{1: ['I48','I422'], 2: ['M069']}`,
`create_trait_modules` gives an individual with codes `['I48','I422']`
the trait modules `[1]`, gives the empty list and the null cell `[]`,
and gives `['I48','M069']` the ascending list `[1,2]`. -/
theorem claim_C1 :
    (create_trait_modules c1Traits
        [((), CellValue.list [chars ("I48"), chars ("I422")])]).map Prod.snd = [[1]]
    ∧ (create_trait_modules c1Traits [((), CellValue.list [])]).map Prod.snd = [[]]
    ∧ (create_trait_modules c1Traits [((), CellValue.null)]).map Prod.snd = [[]]
    ∧ (create_trait_modules c1Traits
        [((), CellValue.list [chars ("I48"), chars ("M069")])]).map Prod.snd = [[1, 2]] :=
  ⟨by decide, by decide, by decide, by decide⟩

/-- Claim C4: `double_occurances` returns exactly the rows whose key
value occurs more than once in the whole table (all occurrences), and
the reported number counts distinct affected key values, not rows; for
keys `[a,a,a,b,c,c]` the report is `2`. -/
theorem claim_C4 :
    (∀ (α K : Type) [DecidableEq K] (rows : List α) (col : α → K),
      double_occurances rows col
          = rows.filter (fun a => decide (1 < (rows.map col).count (col a)))
        ∧ doubleOccCount rows col
          = (dedupF ((rows.filter
              (fun a => decide (1 < (rows.map col).count (col a)))).map col)).length)
    ∧ doubleOccCount ['a', 'a', 'a', 'b', 'c', 'c'] (fun c => c) = 2 := by
  constructor
  · intro α K instK rows col
    have h := maskFilter_map_map (fun k => decide (1 < (rows.map col).count k)) col rows
    refine ⟨h, ?_⟩
    rw [doubleOccCount, double_occurances, duplicatedMask, h]
  · decide

/-- Claim C9: `create_trait_modules` leaves the individual table intact:
projecting away the added column returns the input rows unchanged and in
order, and the added `trait_modules` column is exactly
`get_trait_modules` applied to each row's `icd10_codes` cell. -/
theorem claim_C9 :
    ∀ (α : Type) (traits : List TraitRow) (ind : List (α × CellValue)),
      (create_trait_modules traits ind).map Prod.fst = ind
      ∧ (create_trait_modules traits ind).map Prod.snd
          = ind.map (fun r => get_trait_modules traits r.2) := by
  intro α traits ind
  constructor
  · show (ind.map (fun r => (r, get_trait_modules traits r.2))).map Prod.fst = ind
    rw [List.map_map]
    exact List.map_id ind
  · show (ind.map (fun r => (r, get_trait_modules traits r.2))).map Prod.snd
        = ind.map (fun r => get_trait_modules traits r.2)
    simp

/-- Bracket-delimited string encoding of a token list, `"[A, B, C]"`
style: tokens joined by `", "` inside square brackets. -/
def encodeBracket (ts : List Str) : Str :=
  '[' :: (joinSep (chars (", ")) ts ++ [']'])

/-- A character that survives the source's string surgery unchanged:
not whitespace, bracket, quote, or comma. -/
def cleanChar (c : Char) : Bool :=
  !isPyWs c && !isBracketChar c && !isQuoteChar c && !(c == ',')

/-- A token unaffected by the source's normalisation: nonempty and made
of clean characters. -/
def cleanToken (t : Str) : Bool := !t.isEmpty && t.all cleanChar

theorem dropWhile_all {p : Char → Bool} :
    ∀ s : Str, (∀ c ∈ s, p c = false) → s.dropWhile p = s := by
  intro s h
  cases s with
  | nil => rfl
  | cons c cs =>
    exact List.dropWhile_cons_of_neg (by simp [h c (List.mem_cons_self c cs)])

theorem stripBoth_all {p : Char → Bool} (s : Str) (h : ∀ c ∈ s, p c = false) :
    pyStripBoth p s = s := by
  rw [pyStripBoth, dropWhile_all s h,
    dropWhile_all s.reverse (fun c hc => h c (List.mem_reverse.mp hc)),
    List.reverse_reverse]

theorem mem_joinSep (sep : Str) :
    ∀ (ts : List Str) (c : Char), c ∈ joinSep sep ts → c ∈ sep ∨ ∃ t ∈ ts, c ∈ t := by
  intro ts
  induction ts with
  | nil => intro c hc; simp [joinSep] at hc
  | cons t ts ih =>
    intro c hc
    cases ts with
    | nil =>
      exact Or.inr ⟨t, List.mem_cons_self _ _, by simpa [joinSep] using hc⟩
    | cons t2 ts' =>
      rw [show joinSep sep (t :: t2 :: ts') = t ++ sep ++ joinSep sep (t2 :: ts')
        from rfl] at hc
      rcases List.mem_append.mp hc with h1 | h2
      · rcases List.mem_append.mp h1 with ha | hb
        · exact Or.inr ⟨t, List.mem_cons_self _ _, ha⟩
        · exact Or.inl hb
      · rcases ih c h2 with h | ⟨u, hu, hcu⟩
        · exact Or.inl h
        · exact Or.inr ⟨u, List.mem_cons_of_mem _ hu, hcu⟩

theorem joinSep_ne_nil (sep : Str) (t : Str) (ts : List Str) (h : t ≠ []) :
    joinSep sep (t :: ts) ≠ [] := by
  cases ts with
  | nil => exact h
  | cons t2 ts' =>
    rw [show joinSep sep (t :: t2 :: ts') = t ++ sep ++ joinSep sep (t2 :: ts')
      from rfl]
    simp [h]

theorem strip_encode (mid : Str) (hne : mid ≠ [])
    (hcl : ∀ c ∈ mid, isBracketChar c = false) :
    pyStripBoth isBracketChar ('[' :: (mid ++ [']'])) = mid := by
  obtain ⟨m, ms, rfl⟩ : ∃ m ms, mid = m :: ms := by
    cases mid with
    | nil => exact absurd rfl hne
    | cons m ms => exact ⟨m, ms, rfl⟩
  rw [pyStripBoth]
  rw [List.dropWhile_cons_of_pos (by rfl)]
  rw [List.cons_append,
    List.dropWhile_cons_of_neg (by simp [hcl m (List.mem_cons_self m ms)]),
    ← List.cons_append]
  rw [List.reverse_append, List.reverse_cons, List.reverse_nil, List.nil_append,
    List.singleton_append]
  rw [List.dropWhile_cons_of_pos (by rfl)]
  cases hrev : (m :: ms).reverse with
  | nil => exact absurd hrev (by simp)
  | cons c cs =>
    have hc : c ∈ m :: ms := List.mem_reverse.mp (hrev ▸ List.mem_cons_self c cs)
    rw [List.dropWhile_cons_of_neg (by simp [hcl c hc]), ← hrev, List.reverse_reverse]

theorem removeSpaces_token (t : Str) (h : ∀ c ∈ t, (c == ' ') = false) :
    removeSpaces t = t := by
  rw [removeSpaces, List.filter_eq_self]
  intro c hc
  rw [h c hc]
  rfl

theorem removeSpaces_joinSep :
    ∀ ts : List Str, (∀ t ∈ ts, ∀ c ∈ t, (c == ' ') = false) →
      removeSpaces (joinSep (chars (", ")) ts) = joinSep [','] ts := by
  intro ts
  induction ts with
  | nil => intro _; rfl
  | cons t ts ih =>
    intro h
    cases ts with
    | nil => exact removeSpaces_token t (h t (List.mem_cons_self t []))
    | cons t2 ts' =>
      rw [show joinSep (chars (", ")) (t :: t2 :: ts')
          = t ++ chars (", ") ++ joinSep (chars (", ")) (t2 :: ts') from rfl,
        show joinSep [','] (t :: t2 :: ts')
          = t ++ [','] ++ joinSep [','] (t2 :: ts') from rfl]
      rw [removeSpaces, List.filter_append, List.filter_append]
      rw [show (t.filter fun c => !(c == ' ')) = removeSpaces t from rfl,
        removeSpaces_token t (h t (List.mem_cons_self t _))]
      rw [show ((joinSep (chars (", ")) (t2 :: ts')).filter fun c => !(c == ' '))
          = removeSpaces (joinSep (chars (", ")) (t2 :: ts')) from rfl,
        ih (fun u hu => h u (List.mem_cons_of_mem _ hu))]
      rfl

theorem pySplit_ne_nil (sep : Char) (s : Str) : pySplit sep s ≠ [] := by
  cases s with
  | nil => simp [pySplit]
  | cons c cs =>
    rw [pySplit]
    cases pySplit sep cs with
    | nil => simp
    | cons g gs => by_cases h : c = sep <;> simp [h]

theorem pySplit_append_sep (sep : Char) :
    ∀ (t r : Str), (∀ c ∈ t, c ≠ sep) →
      pySplit sep (t ++ sep :: r) = t :: pySplit sep r := by
  intro t
  induction t with
  | nil =>
    intro r _
    rw [List.nil_append, pySplit]
    cases hp : pySplit sep r with
    | nil => exact absurd hp (pySplit_ne_nil sep r)
    | cons g gs => simp
  | cons c t' ih =>
    intro r h
    rw [List.cons_append, pySplit, ih r (fun x hx => h x (List.mem_cons_of_mem _ hx))]
    simp [h c (List.mem_cons_self c t')]

theorem pySplit_joinSep :
    ∀ ts : List Str, ts ≠ [] → (∀ t ∈ ts, ∀ c ∈ t, c ≠ ',') →
      pySplit ',' (joinSep [','] ts) = ts := by
  intro ts
  induction ts with
  | nil => intro hne _; exact absurd rfl hne
  | cons t ts ih =>
    intro _ h
    cases ts with
    | nil => exact pySplit_no_sep ',' t (h t (List.mem_cons_self t []))
    | cons t2 ts' =>
      rw [show joinSep [','] (t :: t2 :: ts') = t ++ ',' :: joinSep [','] (t2 :: ts')
          from by rw [show joinSep [','] (t :: t2 :: ts')
            = t ++ [','] ++ joinSep [','] (t2 :: ts') from rfl]; simp]
      rw [pySplit_append_sep ',' t _ (h t (List.mem_cons_self t _))]
      rw [ih (by simp) (fun u hu => h u (List.mem_cons_of_mem _ hu))]

/-- Claim C5: a left join whose right side has no duplicate join-key
values produces exactly one output row per left row — so its row count
equals the left row count — pairing each left row with its unique match
or with a null payload when unmatched. -/
theorem claim_C5 :
    ∀ (L R K : Type) [DecidableEq K] (ls : List L) (rs : List R)
      (lk : L → K) (rk : R → K),
      (rs.map rk).Nodup →
      (leftJoin ls rs lk rk).length = ls.length
      ∧ leftJoin ls rs lk rk
          = ls.map (fun l => (l, rs.find? (fun r => decide (rk r = lk l)))) := by
  intro L R K instK ls rs lk rk h
  have he : leftJoin ls rs lk rk
      = ls.map (fun l => (l, rs.find? (fun r => decide (rk r = lk l)))) := by
    induction ls with
    | nil => rfl
    | cons l ls' ih =>
      rw [leftJoin, List.flatMap_cons,
        show (ls'.flatMap fun a => leftJoinRow rs rk (lk a) a) = leftJoin ls' rs lk rk
          from rfl,
        ih, leftJoinRow_of_nodup rs rk (lk l) l h, List.map_cons, List.singleton_append]
  exact ⟨by rw [he, List.length_map], he⟩

/-- Claim C5 witness: a concrete left join with duplicate-free right
keys, one left row matched and one unmatched. -/
theorem claim_C5_witness :
    (([20, 40] : List Int).map (fun r => r)).Nodup
    ∧ ((leftJoin [10, 20] ([20, 40] : List Int) (fun l : Int => l) (fun r => r)).length = 2
      ∧ leftJoin [10, 20] ([20, 40] : List Int) (fun l : Int => l) (fun r => r)
          = ([10, 20] : List Int).map
              (fun l => (l, ([20, 40] : List Int).find? (fun r => decide (r = l))))) :=
  ⟨by decide, claim_C5 Int Int Int [10, 20] [20, 40] (fun l => l) (fun r => r) (by decide)⟩

/-- Claim C7: `get_trait_modules` sends null and the empty code list to
the empty result; a scalar (comma-free, non-bracketed) string is treated
exactly as the one-element code list holding its stripped form; and a
code absent from the inverted index contributes nothing. -/
theorem claim_C7 :
    ∀ traits : List TraitRow,
      (get_trait_modules traits CellValue.null = []
        ∧ get_trait_modules traits (CellValue.list []) = [])
      ∧ (∀ s : Str, (∀ c ∈ s, c ≠ ',') → startsWithBracket s = false →
          get_trait_modules traits (CellValue.str s)
            = get_trait_modules traits (CellValue.list [pyStripWs s]))
      ∧ (∀ (tok : Str) (l1 l2 : List Str), indexLookup traits tok = [] →
          get_trait_modules traits (CellValue.list (l1 ++ tok :: l2))
            = get_trait_modules traits (CellValue.list (l1 ++ l2))) := by
  intro traits
  refine ⟨⟨rfl, rfl⟩, ?_, ?_⟩
  · intro s hsep hbr
    rw [get_trait_modules, get_trait_modules]
    rw [if_neg (by rw [hbr]; exact Bool.false_ne_true)]
    rw [pySplit_no_sep ',' s hsep]
    rfl
  · intro tok l1 l2 h
    rw [get_trait_modules, get_trait_modules, resolveCodes, resolveCodes]
    rw [List.flatMap_append, List.flatMap_append, List.flatMap_cons, h,
      List.nil_append]

/-- Claim C7 witness: the scalar string `I48` resolves like the list
`['I48']`, and the unindexed token `ZZZ` changes nothing. -/
theorem claim_C7_witness :
    ((∀ c ∈ chars ("I48"), c ≠ ',') ∧ startsWithBracket (chars ("I48")) = false
      ∧ indexLookup c1Traits (chars ("ZZZ")) = [])
    ∧ get_trait_modules c1Traits (CellValue.str (chars ("I48")))
        = get_trait_modules c1Traits (CellValue.list [pyStripWs (chars ("I48"))])
    ∧ get_trait_modules c1Traits (CellValue.list ([chars ("I48")] ++ chars ("ZZZ") :: []))
        = get_trait_modules c1Traits (CellValue.list ([chars ("I48")] ++ [])) :=
  ⟨⟨by decide, by decide, by decide⟩,
    (claim_C7 c1Traits).2.1 (chars ("I48")) (by decide) (by decide),
    (claim_C7 c1Traits).2.2 (chars ("ZZZ")) [chars ("I48")] [] (by decide)⟩

theorem cleanToken_props (t : Str) (h : cleanToken t = true) :
    t ≠ [] ∧ ∀ c ∈ t, isBracketChar c = false ∧ (c == ' ') = false ∧ c ≠ ',' := by
  rw [cleanToken, Bool.and_eq_true, List.all_eq_true] at h
  refine ⟨by simpa using h.1, fun c hc => ?_⟩
  have hcc := h.2 c hc
  rw [cleanChar, Bool.and_eq_true, Bool.and_eq_true, Bool.and_eq_true] at hcc
  obtain ⟨⟨⟨hws, hbr⟩, _⟩, hcomma⟩ := hcc
  refine ⟨by simpa using hbr, ?_, by simpa using hcomma⟩
  have hne : c ≠ ' ' := by
    intro hrfl
    rw [hrfl] at hws
    simp [isPyWs] at hws
  simpa using hne

/-- Claim C6: building the inverted index from a trait cell encoded as
the bracket-delimited string `"[A, B, C]"` yields, for every token, the
same primary-key list as building it from the literal sequence
`[A, B, C]` — the string normalisation is equivalent to using a native
sequence as-is (for nonempty tokens free of whitespace, brackets,
quotes and commas). -/
theorem claim_C6 :
    ∀ (i : Int) (ts : List Str) (tok : Str),
      ts ≠ [] → (∀ t ∈ ts, cleanToken t = true) →
      indexLookup [(i, TraitCell.str (encodeBracket ts))] tok
        = indexLookup [(i, TraitCell.list ts)] tok := by
  intro i ts tok hne hcl
  have hprops := fun t ht => cleanToken_props t (hcl t ht)
  have hcodes : traitCellCodes (TraitCell.str (encodeBracket ts))
      = traitCellCodes (TraitCell.list ts) := by
    show pySplit ',' (removeSpaces (pyStripBoth isBracketChar (encodeBracket ts))) = ts
    obtain ⟨t0, ts0, rfl⟩ : ∃ t0 ts0, ts = t0 :: ts0 := by
      cases ts with
      | nil => exact absurd rfl hne
      | cons t0 ts0 => exact ⟨t0, ts0, rfl⟩
    rw [encodeBracket,
      strip_encode (joinSep (chars (", ")) (t0 :: ts0))
        (joinSep_ne_nil _ t0 ts0 (hprops t0 (List.mem_cons_self t0 ts0)).1)
        (fun c hc => by
          rcases mem_joinSep _ _ c hc with hsep | ⟨t, ht, hct⟩
          · rcases List.mem_cons.mp hsep with h1 | h1
            · rw [h1]; rfl
            · rw [List.mem_singleton.mp h1]; rfl
          · exact ((hprops t ht).2 c hct).1)]
    rw [removeSpaces_joinSep (t0 :: ts0) (fun t ht c hc => ((hprops t ht).2 c hc).2.1)]
    exact pySplit_joinSep (t0 :: ts0) (by simp)
      (fun t ht c hc => ((hprops t ht).2 c hc).2.2)
  rw [indexLookup, indexLookup, List.flatMap_cons, List.flatMap_cons, hcodes]

/-- Claim C6 witness: the cell `"[A, B, C]"` and the literal list
`[A, B, C]` index token `A` identically. -/
theorem claim_C6_witness :
    (([chars ("A"), chars ("B"), chars ("C")] : List Str) ≠ []
      ∧ ∀ t ∈ ([chars ("A"), chars ("B"), chars ("C")] : List Str), cleanToken t = true)
    ∧ indexLookup
        [(7, TraitCell.str (encodeBracket [chars ("A"), chars ("B"), chars ("C")]))]
        (chars ("A"))
      = indexLookup [(7, TraitCell.list [chars ("A"), chars ("B"), chars ("C")])] (chars ("A")) :=
  ⟨⟨by decide, by decide⟩,
    claim_C6 7 [chars ("A"), chars ("B"), chars ("C")] (chars ("A")) (by decide) (by decide)⟩

theorem innerJoin_any_none {L : Type} (ls : List L) (t : List MapRow) (lk : L → Str)
    (h : ∀ m ∈ t, m.gene_set.isSome = true) :
    (innerJoin ls t lk (·.transcript)).any (fun r => r.2.gene_set.isNone) = false := by
  rw [List.any_eq_false]
  intro r hr
  obtain ⟨l, m⟩ := r
  obtain ⟨-, hm, -⟩ := (mem_innerJoin ls t lk _ l m).mp hr
  have hs := h m hm
  cases hgs : m.gene_set with
  | none => rw [hgs] at hs; exact absurd hs (by simp)
  | some v => simp [hgs]

theorem setlistMsg_err :
    evalFMsg convertSetlistScope assertMsgRefs assertMsgText
      = Except.error PyErr.nameError := rfl

theorem annotMsg_err :
    evalFMsg convertAnnotScope assertMsgRefs assertMsgText
      = Except.error PyErr.nameError := rfl

theorem convert_setlist_ok (s : List SetlistRow) (t : List MapRow)
    (h : ∀ m ∈ t, m.gene_set.isSome = true) :
    convert_setlist s t
      = Except.ok (setlistLines (innerJoin s t (·.transcript) (·.transcript))) := by
  have hc : setlistAssertCond (innerJoin s t (·.transcript) (·.transcript)) = true := by
    rw [setlistAssertCond, innerJoin_any_none s t _ h]
    rfl
  simp only [convert_setlist, hc, pyAssert, if_true]

theorem convert_annot_ok (a : List AnnotRow) (t : List MapRow)
    (h : ∀ m ∈ t, m.gene_set.isSome = true) :
    convert_annot a t
      = Except.ok ((innerJoin a t (·.transcript) (·.transcript)).map renderAnnotLine) := by
  have hc : (!(innerJoin a t (·.transcript) (·.transcript)).any
      (fun r => r.2.gene_set.isNone)) = true := by
    rw [innerJoin_any_none a t _ h]
    rfl
  simp only [convert_annot, hc, pyAssert, if_true]

theorem innerJoin_drop_unmatched {L R K : Type} [DecidableEq K]
    (rs : List R) (lk : L → K) (rk : R → K) (k : K) (h : k ∉ rs.map rk) :
    ∀ ls : List L,
      innerJoin ls rs lk rk = innerJoin (ls.filter (fun l => decide (lk l ≠ k))) rs lk rk := by
  intro ls
  induction ls with
  | nil => rfl
  | cons l ls' ih =>
    rw [List.filter_cons]
    by_cases hl : lk l = k
    · rw [if_neg (by simp [hl])]
      rw [show innerJoin (l :: ls') rs lk rk
          = (rs.filter (fun r => decide (rk r = lk l))).map (fun r => (l, r))
            ++ innerJoin ls' rs lk rk from by
        simp only [innerJoin, List.flatMap_cons]]
      rw [show rs.filter (fun r => decide (rk r = lk l)) = [] from by
        rw [hl]; exact (filter_key_nil_iff rs rk k).mpr h]
      rw [List.map_nil, List.nil_append]
      exact ih
    · rw [if_pos (by simp [hl])]
      rw [show innerJoin (l :: ls') rs lk rk
          = (rs.filter (fun r => decide (rk r = lk l))).map (fun r => (l, r))
            ++ innerJoin ls' rs lk rk from by
        simp only [innerJoin, List.flatMap_cons],
        show innerJoin (l :: ls'.filter (fun x => decide (lk x ≠ k))) rs lk rk
          = (rs.filter (fun r => decide (rk r = lk l))).map (fun r => (l, r))
            ++ innerJoin (ls'.filter (fun x => decide (lk x ≠ k))) rs lk rk from by
        simp only [innerJoin, List.flatMap_cons]]
      rw [ih]

theorem map_const_replicate {A B : Type} (k : B) :
    ∀ l : List A, l.map (fun _ => k) = List.replicate l.length k := by
  intro l
  induction l with
  | nil => rfl
  | cons a as ih => rw [List.map_cons, List.length_cons, List.replicate_succ, ih]

theorem dedupFAux_replicate_mem {α : Type} [DecidableEq α] (x : α) :
    ∀ (n : Nat) (seen rest : List α), x ∈ seen →
      dedupFAux seen (List.replicate n x ++ rest) = dedupFAux seen rest := by
  intro n
  induction n with
  | zero => intro seen rest _; rfl
  | succ n ihn =>
    intro seen rest hx
    rw [List.replicate_succ, List.cons_append]
    simp only [dedupFAux, if_pos hx]
    exact ihn seen rest hx

theorem dedupFAux_replicate_succ {α : Type} [DecidableEq α] (x : α) (n : Nat)
    (seen rest : List α) :
    dedupFAux seen (List.replicate (n + 1) x ++ rest) = dedupFAux seen (x :: rest) := by
  rw [List.replicate_succ, List.cons_append]
  by_cases hx : x ∈ seen
  · simp only [dedupFAux, if_pos hx]
    exact dedupFAux_replicate_mem x n seen rest hx
  · simp only [dedupFAux, if_neg hx]
    exact congrArg _ (dedupFAux_replicate_mem x n (x :: seen) rest
      (List.mem_cons_self x seen))

theorem dedupFAux_flatMap_keys {A α : Type} [DecidableEq α] (key : A → α) (cnt : A → Nat)
    (hc : ∀ a, 0 < cnt a) :
    ∀ (m : List A) (seen : List α),
      dedupFAux seen (m.flatMap (fun r => List.replicate (cnt r) (key r)))
        = dedupFAux seen (m.map key) := by
  intro m
  induction m with
  | nil => intro _; rfl
  | cons r m' ih =>
    intro seen
    rw [List.flatMap_cons, List.map_cons]
    obtain ⟨n, hn⟩ : ∃ n, cnt r = n + 1 := ⟨cnt r - 1, by have := hc r; omega⟩
    rw [hn, dedupFAux_replicate_succ]
    by_cases hx : key r ∈ seen
    · simp only [dedupFAux, if_pos hx]
      exact ih seen
    · simp only [dedupFAux, if_neg hx]
      exact congrArg _ (ih (key r :: seen))

theorem explodeSnp_map_exKey :
    ∀ m : List (SetlistRow × MapRow),
      (explodeSnp m).map exKey
        = m.flatMap (fun r => List.replicate (pySplit ',' r.1.snp).length (mergedKey r)) := by
  intro m
  induction m with
  | nil => rfl
  | cons r m' ih =>
    rw [show explodeSnp (r :: m')
        = (pySplit ',' r.1.snp).map (fun t => (r, t)) ++ explodeSnp m' from by
      simp only [explodeSnp, List.flatMap_cons]]
    rw [List.map_append, ih, List.flatMap_cons, List.map_map]
    rw [show (exKey ∘ fun t => (r, t)) = (fun _ : Str => mergedKey r) from rfl]
    rw [map_const_replicate]

theorem exKeys_dedupF (m : List (SetlistRow × MapRow)) :
    dedupF ((explodeSnp m).map exKey) = dedupF (m.map mergedKey) := by
  rw [dedupF, dedupF, explodeSnp_map_exKey]
  exact dedupFAux_flatMap_keys mergedKey (fun r => (pySplit ',' r.1.snp).length)
    (fun r => List.length_pos.mpr (pySplit_ne_nil ',' r.1.snp)) m []

theorem explodeSnp_filter_key (k : GroupKey) :
    ∀ m : List (SetlistRow × MapRow),
      ((explodeSnp m).filter (fun r => decide (exKey r = k))).map (fun r => r.2)
        = (m.filter (fun r => decide (mergedKey r = k))).flatMap
            (fun r => pySplit ',' r.1.snp) := by
  intro m
  induction m with
  | nil => rfl
  | cons r m' ih =>
    rw [show explodeSnp (r :: m')
        = (pySplit ',' r.1.snp).map (fun t => (r, t)) ++ explodeSnp m' from by
      simp only [explodeSnp, List.flatMap_cons]]
    rw [List.filter_append, List.map_append, ih, List.filter_cons]
    by_cases hk : mergedKey r = k
    · rw [if_pos (by simp [hk]), List.flatMap_cons]
      rw [show ((pySplit ',' r.1.snp).map (fun t => (r, t))).filter
            (fun x => decide (exKey x = k))
          = (pySplit ',' r.1.snp).map (fun t => (r, t)) from
        List.filter_eq_self.mpr (fun x hx => by
          obtain ⟨tt, htt, rfl⟩ := List.mem_map.mp hx
          simpa [exKey] using hk)]
      rw [List.map_map]
      rw [show ((fun x : (SetlistRow × MapRow) × Str => x.2) ∘ fun t => (r, t))
          = (fun t : Str => t) from rfl]
      rw [List.map_id']
    · rw [if_neg (by simp [hk])]
      rw [show ((pySplit ',' r.1.snp).map (fun t => (r, t))).filter
            (fun x => decide (exKey x = k)) = [] from
        List.filter_eq_nil_iff.mpr (fun x hx => by
          obtain ⟨tt, htt, rfl⟩ := List.mem_map.mp hx
          simpa [exKey] using hk)]
      rw [List.map_nil, List.nil_append]

/-- A setlist whose single row carries transcript `T1`. -/
def c2Row : SetlistRow := ⟨chars ("T1"), chars ("chr1"), 5, chars ("s1")⟩

def c2Setlist : List SetlistRow := [c2Row]

/-- A transcript map that is missing `T1` (it only maps `T2`) and has a
non-null `gene_set` column. -/
def c2Map : List MapRow :=
  [⟨chars ("chr1"), chars ("T2"), chars ("g1"), chars ("G1"), some (chars ("GS1"))⟩]

/-- Claim C2 counterexample: converting a setlist containing transcript
`T1` against a transcript map missing `T1` does not raise — the inner
join silently drops the row and an (empty) output is written. -/
theorem claim_C2_cex : convert_setlist c2Setlist c2Map = Except.ok [] := rfl

/-- Claim C2 (amended): with a transcript map whose `gene_set` column is
non-null, a transcript `T1` occurring in the setlist but missing from
the map does not make `convert_setlist` raise; its rows are dropped by
the inner join, so the conversion succeeds and equals the conversion of
the setlist with those rows removed. -/
theorem claim_C2 :
    ∀ (s : List SetlistRow) (t : List MapRow) (T1 : Str),
      (∀ m ∈ t, m.gene_set.isSome = true) →
      T1 ∈ s.map (·.transcript) → T1 ∉ t.map (·.transcript) →
      (convert_setlist s t).isOk = true
      ∧ convert_setlist s t
          = convert_setlist (s.filter (fun r => decide (r.transcript ≠ T1))) t := by
  intro s t T1 hsome _ hout
  refine ⟨by rw [convert_setlist_ok s t hsome]; rfl, ?_⟩
  rw [convert_setlist_ok s t hsome, convert_setlist_ok _ t hsome,
    innerJoin_drop_unmatched t (·.transcript) (·.transcript) T1 hout s]

/-- Claim C2 witness: the concrete missing-transcript conversion
succeeds and equals the conversion of the filtered setlist. -/
theorem claim_C2_witness :
    ((∀ m ∈ c2Map, m.gene_set.isSome = true)
      ∧ chars ("T1") ∈ c2Setlist.map (·.transcript)
      ∧ chars ("T1") ∉ c2Map.map (·.transcript))
    ∧ (convert_setlist c2Setlist c2Map).isOk = true
    ∧ convert_setlist c2Setlist c2Map
        = convert_setlist
            (c2Setlist.filter (fun r => decide (r.transcript ≠ chars ("T1")))) c2Map :=
  ⟨⟨by decide, by decide, by decide⟩,
    claim_C2 c2Setlist c2Map (chars ("T1")) (by decide) (by decide) (by decide)⟩

/-- Claim C3: an unresolved transcript is non-fatal — in both the
setlist and the annotation diagnostic left merges the row is retained
with a null payload and the reported count is the number of distinct
missing transcripts, while the final per-chromosome conversions
(`convert_setlist`, `convert_annot`) drop the row by inner-join
semantics and still complete. -/
theorem claim_C3 :
    ∀ (s : List SetlistRow) (a : List AnnotRow) (t : List MapRow),
      missingTranscriptCount s t
        = (dedupF ((s.filter
            (fun r => decide (r.transcript ∉ t.map (·.transcript)))).map
              (·.transcript))).length
      ∧ missingTranscriptAnnotCount a t
        = (dedupF ((a.filter
            (fun r => decide (r.transcript ∉ t.map (·.transcript)))).map
              (·.transcript))).length
      ∧ (∀ row ∈ s, row.transcript ∉ t.map (·.transcript) →
          (row, (none : Option MapRow)) ∈ setlistLeftMerge s t
          ∧ ∀ m : MapRow, (row, m) ∉ innerJoin s t (·.transcript) (·.transcript))
      ∧ (∀ row ∈ a, row.transcript ∉ t.map (·.transcript) →
          (row, (none : Option MapRow)) ∈ annotLeftMerge a t
          ∧ ∀ m : MapRow, (row, m) ∉ innerJoin a t (·.transcript) (·.transcript))
      ∧ ((∀ m ∈ t, m.gene_set.isSome = true) →
          (convert_setlist s t).isOk = true ∧ (convert_annot a t).isOk = true) := by
  intro s a t
  refine ⟨?_, ?_, ?_, ?_, ?_⟩
  · rw [missingTranscriptCount, missingTranscripts, setlistLeftMerge,
      leftJoin_isNone_filter]
    rw [List.map_map]
    rw [show ((fun r : SetlistRow × Option MapRow => r.1.transcript)
        ∘ fun l => (l, (none : Option MapRow))) = fun l : SetlistRow => l.transcript
      from rfl]
    refine congrArg List.length (congrArg dedupF
      (congrArg (List.map fun x : SetlistRow => x.transcript)
        (List.filter_congr (fun x _ => ?_))))
    exact decide_eq_decide.mpr Iff.rfl
  · rw [missingTranscriptAnnotCount, missingTranscriptsAnnot, annotLeftMerge,
      leftJoin_isNone_filter]
    rw [List.map_map]
    rw [show ((fun r : AnnotRow × Option MapRow => r.1.transcript)
        ∘ fun l => (l, (none : Option MapRow))) = fun l : AnnotRow => l.transcript
      from rfl]
    refine congrArg List.length (congrArg dedupF
      (congrArg (List.map fun x : AnnotRow => x.transcript)
        (List.filter_congr (fun x _ => ?_))))
    exact decide_eq_decide.mpr Iff.rfl
  · intro row hrow hout
    constructor
    · rw [setlistLeftMerge, leftJoin]
      exact List.mem_flatMap.mpr ⟨row, hrow,
        by rw [leftJoinRow_unmatched t _ row.transcript row hout]
           exact List.mem_singleton.mpr rfl⟩
    · intro m hm
      obtain ⟨-, hmt, hkey⟩ := (mem_innerJoin s t _ _ row m).mp hm
      exact hout (List.mem_map.mpr ⟨m, hmt, hkey⟩)
  · intro row hrow hout
    constructor
    · rw [annotLeftMerge, leftJoin]
      exact List.mem_flatMap.mpr ⟨row, hrow,
        by rw [leftJoinRow_unmatched t _ row.transcript row hout]
           exact List.mem_singleton.mpr rfl⟩
    · intro m hm
      obtain ⟨-, hmt, hkey⟩ := (mem_innerJoin a t _ _ row m).mp hm
      exact hout (List.mem_map.mpr ⟨m, hmt, hkey⟩)
  · intro hsome
    exact ⟨by rw [convert_setlist_ok s t hsome]; rfl,
      by rw [convert_annot_ok a t hsome]; rfl⟩

/-- Annotation row for transcript `T1`, unresolved against `c2Map`. -/
def c3AnnotRow : AnnotRow := ⟨chars ("v1"), chars ("T1"), chars ("PTV")⟩

def c3Annot : List AnnotRow := [c3AnnotRow]

/-- Claim C3 witness: for the concrete setlist/annotation/map triple
with the single unresolved transcript `T1`, both diagnostic counts
match, both rows are retained with a null payload in their left merges,
both are dropped by the inner joins, and both conversions still
succeed. -/
theorem claim_C3_witness :
    (c2Row ∈ c2Setlist ∧ c3AnnotRow ∈ c3Annot
      ∧ chars ("T1") ∉ c2Map.map (·.transcript)
      ∧ (∀ m ∈ c2Map, m.gene_set.isSome = true))
    ∧ missingTranscriptCount c2Setlist c2Map
        = (dedupF ((c2Setlist.filter
            (fun r => decide (r.transcript ∉ c2Map.map (·.transcript)))).map
              (·.transcript))).length
    ∧ missingTranscriptAnnotCount c3Annot c2Map
        = (dedupF ((c3Annot.filter
            (fun r => decide (r.transcript ∉ c2Map.map (·.transcript)))).map
              (·.transcript))).length
    ∧ (c2Row, (none : Option MapRow)) ∈ setlistLeftMerge c2Setlist c2Map
    ∧ (∀ m : MapRow,
        (c2Row, m) ∉ innerJoin c2Setlist c2Map (·.transcript) (·.transcript))
    ∧ (c3AnnotRow, (none : Option MapRow)) ∈ annotLeftMerge c3Annot c2Map
    ∧ (∀ m : MapRow,
        (c3AnnotRow, m) ∉ innerJoin c3Annot c2Map (·.transcript) (·.transcript))
    ∧ (convert_setlist c2Setlist c2Map).isOk = true
    ∧ (convert_annot c3Annot c2Map).isOk = true :=
  ⟨⟨by decide, by decide, by decide, by decide⟩,
    (claim_C3 c2Setlist c3Annot c2Map).1,
    (claim_C3 c2Setlist c3Annot c2Map).2.1,
    ((claim_C3 c2Setlist c3Annot c2Map).2.2.1 c2Row (by decide) (by decide)).1,
    ((claim_C3 c2Setlist c3Annot c2Map).2.2.1 c2Row (by decide) (by decide)).2,
    ((claim_C3 c2Setlist c3Annot c2Map).2.2.2.1 c3AnnotRow (by decide) (by decide)).1,
    ((claim_C3 c2Setlist c3Annot c2Map).2.2.2.1 c3AnnotRow (by decide) (by decide)).2,
    ((claim_C3 c2Setlist c3Annot c2Map).2.2.2.2 (by decide)).1,
    ((claim_C3 c2Setlist c3Annot c2Map).2.2.2.2 (by decide)).2⟩

/-- What claim C8 asserts of the lines returned by a successful
`convert_setlist s t`: one tab-separated headerless line per distinct
`(gene_set, chrom, pos)` key of the merged table, and for every such key
the line whose `snp` field comma-joins the deduplicated tokens obtained
by splitting the group's input snp strings on `','` is present. -/
def C8Spec (s : List SetlistRow) (t : List MapRow) : Prop :=
  ∃ lines,
    convert_setlist s t = Except.ok lines
    ∧ lines.length
        = (dedupF ((innerJoin s t (·.transcript) (·.transcript)).map mergedKey)).length
    ∧ ∀ gs ch : Str, ∀ p : Int,
        (some gs, ch, p) ∈ (innerJoin s t (·.transcript) (·.transcript)).map mergedKey →
        (gs ++ '\t' :: (ch ++ '\t' :: (intChars p ++ '\t' ::
            joinSep [','] (dedupF
              (((innerJoin s t (·.transcript) (·.transcript)).filter
                  (fun r => decide (mergedKey r = (some gs, ch, p)))).flatMap
                (fun r => pySplit ',' r.1.snp)))))) ∈ lines

/-- Claim C8: when the transcript map's `gene_set` column is non-null,
the converted setlist is a headerless list of tab-delimited lines, one
per `(gene_set, chrom, pos)` group, with columns in the order
`gene_set, chrom, pos, snp` and the snp field equal to the comma-joined
deduplicated set of tokens split from the group's input snp strings. -/
theorem claim_C8 :
    ∀ (s : List SetlistRow) (t : List MapRow),
      (∀ m ∈ t, m.gene_set.isSome = true) → C8Spec s t := by
  intro s t h
  refine ⟨setlistLines (innerJoin s t (·.transcript) (·.transcript)),
    convert_setlist_ok s t h, ?_, ?_⟩
  · simp only [setlistLines]
    rw [List.length_map, sortBy_length, dedupF, dedupF]
    rw [show (explodeSnp (innerJoin s t (·.transcript) (·.transcript))).map exKey
        = (innerJoin s t (·.transcript) (·.transcript)).flatMap
            (fun r => List.replicate (pySplit ',' r.1.snp).length (mergedKey r))
      from explodeSnp_map_exKey _]
    rw [dedupFAux_flatMap_keys mergedKey (fun r => (pySplit ',' r.1.snp).length)
      (fun r => List.length_pos.mpr (pySplit_ne_nil ',' r.1.snp)) _ []]
  · intro gs ch p hk
    have hkd : (some gs, ch, p)
        ∈ dedupF ((explodeSnp (innerJoin s t (·.transcript) (·.transcript))).map exKey) := by
      rw [exKeys_dedupF, dedupF_mem]
      exact hk
    have hks : (some gs, ch, p)
        ∈ sortBy keyLeB
            (dedupF ((explodeSnp (innerJoin s t (·.transcript) (·.transcript))).map exKey)) := by
      rw [sortBy_mem]
      exact hkd
    have hline := List.mem_map_of_mem (fun k => renderSetlistLine k
        (((explodeSnp (innerJoin s t (·.transcript) (·.transcript))).filter
            (fun r => decide (exKey r = k))).map (fun r => r.2))) hks
    have heq : renderSetlistLine ((some gs, ch, p) : GroupKey)
        (((explodeSnp (innerJoin s t (·.transcript) (·.transcript))).filter
            (fun r => decide (exKey r = (some gs, ch, p)))).map (fun r => r.2))
        = gs ++ '\t' :: (ch ++ '\t' :: (intChars p ++ '\t' ::
            joinSep [','] (dedupF
              (((innerJoin s t (·.transcript) (·.transcript)).filter
                  (fun r => decide (mergedKey r = (some gs, ch, p)))).flatMap
                (fun r => pySplit ',' r.1.snp))))) := by
      rw [explodeSnp_filter_key]
      simp [renderSetlistLine, joinSep, List.append_assoc]
    rw [← heq]
    simpa only [setlistLines] using hline

/-- Setlist used to witness claim C8: two transcripts of the same gene
set sharing snp token `s2`. -/
def c8Setlist : List SetlistRow :=
  [⟨chars ("T1"), chars ("chr1"), 5, chars ("s1,s2")⟩,
   ⟨chars ("T2"), chars ("chr1"), 5, chars ("s2,s3")⟩]

/-- Transcript map used to witness claims C8 and C10: both transcripts
mapped, non-null gene sets. -/
def c8Map : List MapRow :=
  [⟨chars ("chr1"), chars ("T1"), chars ("g1"), chars ("G1"), some (chars ("GS1"))⟩,
   ⟨chars ("chr1"), chars ("T2"), chars ("g2"), chars ("G2"), some (chars ("GS1"))⟩]

/-- Claim C8 witness: the concrete conversion satisfies the output
contract. -/
theorem claim_C8_witness :
    (∀ m ∈ c8Map, m.gene_set.isSome = true) ∧ C8Spec c8Setlist c8Map :=
  ⟨by decide, claim_C8 c8Setlist c8Map (by decide)⟩

/-- Transcript map carrying a null `gene_set` for transcript `T1`, used
to reach the assertion branch. -/
def c10Map : List MapRow := [⟨chars ("chr1"), chars ("T1"), chars ("g1"), chars ("G1"), none⟩]

/-- Annotation row for transcript `T1`. -/
def c10Annot : List AnnotRow := [⟨chars ("v1"), chars ("T1"), chars ("PTV")⟩]

/-- Claim C10: the name `chrom` is unbound in the scopes of
`convert_setlist` and `convert_annot`, so whenever the merged table
contains a null `gene_set` the failing assertion's message evaluation
raises `NameError` (not `AssertionError`); and when the transcript map
has no null `gene_set`, the assertion branch is unreachable and both
conversions succeed. -/
theorem claim_C10 :
    ∀ (s : List SetlistRow) (a : List AnnotRow) (t : List MapRow),
      (chars ("chrom") ∉ convertSetlistScope ∧ chars ("chrom") ∉ convertAnnotScope)
      ∧ ((innerJoin s t (·.transcript) (·.transcript)).any
            (fun r => r.2.gene_set.isNone) = true →
          convert_setlist s t = Except.error PyErr.nameError)
      ∧ ((innerJoin a t (·.transcript) (·.transcript)).any
            (fun r => r.2.gene_set.isNone) = true →
          convert_annot a t = Except.error PyErr.nameError)
      ∧ ((∀ m ∈ t, m.gene_set.isSome = true) →
          (convert_setlist s t).isOk = true ∧ (convert_annot a t).isOk = true) := by
  intro s a t
  refine ⟨⟨by decide, by decide⟩, ?_, ?_, ?_⟩
  · intro h
    have hc : setlistAssertCond (innerJoin s t (·.transcript) (·.transcript)) = false := by
      rw [setlistAssertCond, h]
      rfl
    simp only [convert_setlist, hc, pyAssert, if_false, setlistMsg_err,
      Bool.false_eq_true]
  · intro h
    have hc : (!(innerJoin a t (·.transcript) (·.transcript)).any
        (fun r => r.2.gene_set.isNone)) = false := by
      rw [h]
      rfl
    simp only [convert_annot, hc, pyAssert, if_false, annotMsg_err,
      Bool.false_eq_true]
  · intro hsome
    exact ⟨by rw [convert_setlist_ok s t hsome]; rfl,
      by rw [convert_annot_ok a t hsome]; rfl⟩

/-- Claim C10 witness: a reachable null `gene_set` makes both
conversions fail with `NameError`, and a null-free map makes both
succeed. -/
theorem claim_C10_witness :
    ((innerJoin c2Setlist c10Map (·.transcript) (·.transcript)).any
        (fun r => r.2.gene_set.isNone) = true
      ∧ convert_setlist c2Setlist c10Map = Except.error PyErr.nameError)
    ∧ ((innerJoin c10Annot c10Map (·.transcript) (·.transcript)).any
        (fun r => r.2.gene_set.isNone) = true
      ∧ convert_annot c10Annot c10Map = Except.error PyErr.nameError)
    ∧ ((∀ m ∈ c8Map, m.gene_set.isSome = true)
      ∧ (convert_setlist c8Setlist c8Map).isOk = true
      ∧ (convert_annot c10Annot c8Map).isOk = true) :=
  ⟨⟨by decide, (claim_C10 c2Setlist c10Annot c10Map).2.1 (by decide)⟩,
   ⟨by decide, (claim_C10 c2Setlist c10Annot c10Map).2.2.1 (by decide)⟩,
   ⟨by decide, ((claim_C10 c8Setlist c10Annot c8Map).2.2.2 (by decide)).1,
     ((claim_C10 c8Setlist c10Annot c8Map).2.2.2 (by decide)).2⟩⟩

end BurdenGenesets
